import Mathlib

/-
Verification development for `xap/layout.py`: a shallow embedding of the
BIDS dataset facade (file records, dataset construction, query-table
derivation and the `_query` filter evaluator) together with theorems
settling the specification claims.

Modelling conventions:
  * A pandas cell is `Option Val`; `none` stands for a missing value
    (`NaN`/null).  A dataframe is a list of column names plus one
    association list of cells per row; pandas guarantees every row has
    every column, so a key absent from a row's association list is read
    as a null cell.
  * Fallible Python code (KeyError, ValueError, NameError, TypeError,
    AttributeError) is modelled with `Except Err`.
  * JSON values are modelled to the nesting depth the code manipulates:
    atoms, lists of atoms, and flat objects mapping keys to atoms.
-/

set_option autoImplicit false

namespace Xap

/-- Atomic Python/JSON values appearing in table cells. -/
inductive Atom where
  | s (v : String)
  | i (v : Int)
  | b (v : Bool)
deriving DecidableEq, Repr

/-- A non-null table cell value: an atom, a Python list, or a JSON object. -/
inductive Val where
  | a (v : Atom)
  | lst (vs : List Atom)
  | obj (m : List (String × Atom))
deriving DecidableEq, Repr

/-- Python truthiness of an atom (`bool(x)`). -/
def Atom.truthy : Atom → Bool
  | .s v => v ≠ ""
  | .i v => v ≠ 0
  | .b v => v

/-- Python truthiness of a cell value (`bool(x)`). -/
def Val.truthy : Val → Bool
  | .a v => v.truthy
  | .lst vs => !vs.isEmpty
  | .obj m => !m.isEmpty

/-- A table cell: `none` is a missing value (pandas NaN / null). -/
abbrev Cell := Option Val

/-- One table row, as an association list from column name to cell. -/
abbrev Row := List (String × Cell)

/-- Read a cell of a row; a key absent from the association list is a
null cell (in pandas every row carries every column, nulls included). -/
def cellOf (r : Row) (k : String) : Cell :=
  match r.find? (fun p => p.1 == k) with
  | some p => p.2
  | none => none

/-- Python exceptions raised by the modelled code paths. -/
inductive Err where
  | keyError (k : String)
  /-- `BIDSValidationError` (layout.py line 17): declared as the dataset's
  designated error for invalid files or values; never raised in this module. -/
  | bidsValidation
  | valueError
  | nameError (n : String)
  | typeError
  /-- `bool()` of a pandas Series with zero or several elements. -/
  | truthAmbiguous
  /-- Indexing a DataFrame with a scalar bool (`table[True]`). -/
  | keyErrorBool
  /-- Comparing a Series to a list of a different length. -/
  | lengthMismatch
  | attributeError (n : String)
  /-- Label `0` missing from the RangeIndex of an empty table. -/
  | indexKeyError
  /-- `DataFrame.join` with overlapping column names and no suffixes. -/
  | joinOverlap
deriving DecidableEq, Repr

/-- Modelled from the spec: the filter-value sentinels `NONE`, `REQUIRED`
and `OPTIONAL` live in the `xap.types` module, which is not part of the
sources at hand.  Per the spec they form a closed tagged variant distinct
from every ordinary value, and a filter value is an ordinary (non-list)
value, a list of candidate values, or one of the sentinels; Python `None`
and the `NONE` sentinel are treated identically by `_query`, so both are
`noneS`. -/
inductive FilterVal where
  | noneS
  | required
  | optional
  | scalar (v : Val)
  | flist (vs : List Val)
deriving DecidableEq, Repr

/-- A row of an indexed table (after `set_index`): index label plus cells. -/
structure QRow where
  idx : Cell
  cells : Row
deriving DecidableEq, Repr

/-- An indexed pandas DataFrame: column names plus rows. -/
structure QTable where
  cols : List String
  rows : List QRow
deriving DecidableEq, Repr

/-- Boolean-mask row selection `table[mask]`. -/
def QTable.filterRows (t : QTable) (p : QRow → Bool) : QTable :=
  { t with rows := t.rows.filter p }

/-- `table.dropna(subset=key)`: drop rows whose cell at `key` is null.
Callers must have checked that `key` is a column. -/
def QTable.dropna (t : QTable) (k : String) : QTable :=
  { t with rows := t.rows.filter (fun r => (cellOf r.cells k).isSome) }

/-- `table.set_index(k)`: the column `k` becomes the index and is removed
from the columns. -/
def QTable.set_index (t : QTable) (k : String) : QTable :=
  { cols := t.cols.filter (fun c => c ≠ k),
    rows := t.rows.map (fun r =>
      { idx := cellOf r.cells k, cells := r.cells.filter (fun p => p.1 ≠ k) }) }

/-- `series.astype(bool)` on one cell.  Missing values are float NaN in
pandas and `bool(nan)` is `True` (the source marks this with
"TODO: Handle nan" at layout.py line 147). -/
def astypeBool (c : Cell) : Bool :=
  match c with
  | none => true
  | some v => v.truthy

/-- Python `str.startswith`, as structural recursion on the character
lists (the library `String.startsWith` is defined by well-founded
recursion on byte positions and does not reduce definitionally). -/
def strStartsWith (s pre : String) : Bool :=
  pre.data.isPrefixOf s.data

/-- Whether a cell holds a Python `list` (`type(cell) == list`). -/
def isListCell : Cell → Bool
  | some (.lst _) => true
  | _ => false

/-- Auxiliary accumulator for `firstUniques`. -/
def uniqAux {α : Type} [DecidableEq α] (seen : List α) : List α → List α
  | [] => []
  | a :: as => if a ∈ seen then uniqAux seen as else a :: uniqAux (a :: seen) as

/-- `index.unique()`: first occurrences, in order. -/
def firstUniques {α : Type} [DecidableEq α] (l : List α) : List α :=
  uniqAux [] l

/-- `BIDSDataset._query` (layout.py lines 143-166): fold the filters over
the table in mapping order and return the unique index labels of the
surviving rows.

  * `noneS` (Python `None` or the `NONE` sentinel): keep rows whose
    `astype(bool)` is false; reading the column raises `KeyError` when it
    is absent.
  * `required`: `dropna` on the column (KeyError when absent) then keep
    truthy rows.
  * `optional`: no filtering.
  * otherwise, a missing column or an already-empty table short-circuits
    the whole query to `[]`; else the rows with null cells are dropped
    and the remaining rows are compared against the filter value.  For a
    list filter over a column with at least one non-list cell the source
    evaluates `table[table[key] in val]`: `list.__contains__` calls
    `bool()` on an elementwise comparison Series, which raises unless the
    table has exactly one row (or the list is empty), and in those cases
    the resulting Python bool is then used as a column label, raising
    KeyError.  When every cell is a list, `table[key] == val` compares
    the Series to the filter list elementwise, raising unless the lengths
    match. -/
def _query : QTable → List (String × FilterVal) → Except Err (List Cell)
  | t, [] => .ok (firstUniques (t.rows.map (fun r => r.idx)))
  | t, (key, .noneS) :: rest =>
      if key ∈ t.cols then
        _query (t.filterRows (fun r => !astypeBool (cellOf r.cells key))) rest
      else .error (.keyError key)
  | t, (key, .required) :: rest =>
      if key ∈ t.cols then
        _query ((t.dropna key).filterRows (fun r => astypeBool (cellOf r.cells key))) rest
      else .error (.keyError key)
  | t, (_, .optional) :: rest => _query t rest
  | t, (key, .scalar v) :: rest =>
      if key ∉ t.cols ∨ t.rows = [] then .ok []
      else
        _query ((t.dropna key).filterRows (fun r => cellOf r.cells key == some v)) rest
  | t, (key, .flist vs) :: rest =>
      if key ∉ t.cols ∨ t.rows = [] then .ok []
      else
        let t1 := t.dropna key
        if t1.rows.any (fun r => !isListCell (cellOf r.cells key)) then
          if vs = [] then .error .keyErrorBool
          else if t1.rows.length = 1 then .error .keyErrorBool
          else .error .truthAmbiguous
        else if t1.rows.length ≠ vs.length then .error .lengthMismatch
        else
          _query { t1 with rows := (t1.rows.zip vs).filterMap (fun rv =>
            if cellOf rv.1.cells key == some rv.2 then some rv.1 else none) } rest

/-- Sequencing of a fallible map over a list (`[f(x) for x in xs]` where
each `f(x)` may raise): stops at the first error. -/
def mapExcept {α β : Type} : List α → (α → Except Err β) → Except Err (List β)
  | [], _ => .ok []
  | a :: as, f =>
    match f a with
    | .error e => .error e
    | .ok b =>
      match mapExcept as f with
      | .error e => .error e
      | .ok bs => .ok (b :: bs)

/-- The schema's entity namespace (`schema.objects.entities`), external to
this repository: an ordered mapping from entity key (e.g. `subject`) to
the entity's short name (`.name`, e.g. `sub`). -/
abbrev SchemaEntities := List (String × String)

/-- The column-rename dictionary of `query_table` (layout.py lines
135-140): one entry `ent__<name> : key` per schema entity, then the
`update` call appends `ent__datatype`/`ent__suffix`/`ent__ext`.  Python
dict insertion order with overwrite-on-repeat means a lookup takes the
last entry for a key. -/
def renPairs (schema : SchemaEntities) : List (String × String) :=
  schema.map (fun kv => ("ent__" ++ kv.2, kv.1)) ++
    [("ent__datatype", "datatype"), ("ent__suffix", "suffix"), ("ent__ext", "extension")]

/-- `DataFrame.rename(columns=renamer)` applied to one column name:
the renamer maps it if present (last dict entry wins), else keeps it. -/
def renameCol (schema : SchemaEntities) (c : String) : String :=
  match (renPairs schema).reverse.find? (fun p => p.1 == c) with
  | some p => p.2
  | none => c

/-- One step of the metadata expansion (layout.py line 133):
`obj or \x7b\x7d` turns a null (or empty) cell into the empty mapping.
The raw-table contract says `meta__json` holds a structured object or
null; a non-object cell would make `pd.DataFrame` of the row list raise. -/
def metaDict (c : Cell) : Except Err (List (String × Atom)) :=
  match c with
  | none => .ok []
  | some (.obj m) => .ok m
  | some _ => .error .typeError

/-- `BIDSFile`: path, parsed entities, datatype/suffix/extension and a
back-reference to the owning dataset.  Only the truthiness of the
back-reference is ever consulted (layout.py line 110; line 112 fails on
an unbound name before the dataset could be used), so the reference is
modelled as a flag. -/
structure BIDSFile where
  path : String
  hasDataset : Bool
  entities : List (String × Val)
  datatype : Cell
  suffix : Cell
  extension : Cell
deriving DecidableEq, Repr

/-- The entity dictionary built by `BIDSFile.from_row` (layout.py lines
93-97): the non-null `ent__*` cells of the row, in column order, with the
prefix stripped and the reserved keys excluded. -/
def rowEntities (cols : List String) (row : Row) : List (String × Val) :=
  cols.filterMap (fun c =>
    match cellOf row c with
    | none => none
    | some v =>
      if strStartsWith c "ent__"
          && !(["datatype", "suffix", "ext", "extra_entities"].contains (c.drop 5))
      then some (c.drop 5, v) else none)

/-- `BIDSFile.from_row` (layout.py lines 91-105).  `row[col]` raises
`KeyError` when `col` is not a column; the lookups happen in source
order (path, then datatype, suffix, ext), and only afterwards does
`File.__init__` call `Path(path)`, which raises `TypeError` when the
path cell is not a string (e.g. NaN). -/
def BIDSFile.from_row (cols : List String) (row : Row) (hasDs : Bool) :
    Except Err BIDSFile :=
  if "file__file_path" ∈ cols then
    if "ent__datatype" ∈ cols then
      if "ent__suffix" ∈ cols then
        if "ent__ext" ∈ cols then
          match cellOf row "file__file_path" with
          | some (Val.a (Atom.s p)) =>
            .ok { path := p, hasDataset := hasDs,
                  entities := rowEntities cols row,
                  datatype := cellOf row "ent__datatype",
                  suffix := cellOf row "ent__suffix",
                  extension := cellOf row "ent__ext" }
          | _ => .error .typeError
        else .error (.keyError "ent__ext")
      else .error (.keyError "ent__suffix")
    else .error (.keyError "ent__datatype")
  else .error (.keyError "file__file_path")

/-- `BIDSFile.metadata` (layout.py lines 107-112): with no owning dataset
it raises a bare `ValueError`; otherwise line 112 reads the name
`dataset`, which is bound nowhere in that scope (the source means
`self.dataset`), so execution raises `NameError` before any lookup. -/
def BIDSFile.metadata (f : BIDSFile) : Except Err Val :=
  if !f.hasDataset then .error .valueError
  else .error (.nameError "dataset")

/-- Modelled from the spec: the behaviour section 4.2 ascribes to
`metadata` once a dataset is attached — the `meta__json` cell of the
unique raw-table row whose `file__file_path` equals this file's path
(zero or several matches raise). -/
def metadataSpecced (rows : List Row) (path : String) : Except Err Val :=
  match rows.filter (fun r => cellOf r "file__file_path" == some (Val.a (Atom.s path))) with
  | [r] =>
    match cellOf r "meta__json" with
    | some v => .ok v
    | none => .error .valueError
  | _ => .error .valueError

/-- `BIDSDataset`: schema, raw table (columns and rows, with the implicit
RangeIndex), and the derived fields the constructor assigns.  The
`ignored`/`modalities`/`entities` placeholders (always `[]`, marked TODO
in the source) are omitted. -/
structure BIDSDataset where
  schema : SchemaEntities
  cols : List String
  rows : List Row
  dataset_description : Cell
  files : List BIDSFile
  datatypes : List Cell
  subjects : List Cell
deriving DecidableEq, Repr

/-- `BIDSDataset.__init__` (layout.py lines 116-127), taking the table
`bids2table(root)` returned (the indexer is external).  In source order:
`ds__dataset_description` column lookup (KeyError when absent) and `[0]`
label lookup (KeyError on an empty table), one `BIDSFile.from_row` per
row, then the unique values of `ent__datatype` and `ent__sub` (attribute
access on a missing column raises `AttributeError`). -/
def mkDataset (schema : SchemaEntities) (cols : List String) (rows : List Row) :
    Except Err BIDSDataset :=
  if "ds__dataset_description" ∉ cols then .error (.keyError "ds__dataset_description")
  else
    match rows with
    | [] => .error .indexKeyError
    | r0 :: _ =>
      match mapExcept rows (fun r => BIDSFile.from_row cols r true) with
      | .error e => .error e
      | .ok files =>
        if "ent__datatype" ∉ cols then .error (.attributeError "ent__datatype")
        else if "ent__sub" ∉ cols then .error (.attributeError "ent__sub")
        else
          .ok { schema := schema, cols := cols, rows := rows,
                dataset_description := cellOf r0 "ds__dataset_description",
                files := files,
                datatypes := firstUniques (rows.map (fun r => cellOf r "ent__datatype")),
                subjects := firstUniques (rows.map (fun r => cellOf r "ent__sub")) }

/-- `DataFrame.join(meta)` (layout.py line 134): both frames carry the
same index in the same order (and the dataset invariant makes the paths
unique), so the join is a pairwise merge; pandas raises when column
names overlap and no suffixes are given. -/
def joinMeta (t : QTable) (metaCols : List String) (metaRows : List Row) :
    Except Err QTable :=
  if t.cols.any (fun c => metaCols.contains c) then .error .joinOverlap
  else .ok { cols := t.cols ++ metaCols,
             rows := (t.rows.zip metaRows).map (fun p =>
               { p.1 with cells := p.1.cells ++ p.2 }) }

/-- Columns kept by `table.iloc[:, ~table.columns.str.match(...)]`
(layout.py line 134): everything except the `ds__`/`file__`/`meta__`
namespaces and the extra-entities column. -/
def keepCol (c : String) : Bool :=
  !(strStartsWith c "ds__" || strStartsWith c "file__" || strStartsWith c "meta__"
    || strStartsWith c "ent__extra")

/-- `BIDSDataset.query_table` (layout.py lines 129-141): re-index the raw
table by file path, add a `path` column equal to the index, expand the
`meta__json` objects into one column per key (union of keys in first-seen
order, missing keys null), drop the internal namespaced columns, join the
metadata columns on, rename entity/datatype/suffix/extension columns, and
drop the columns that are null in every row.  The `cached_property` is
pure, so memoization needs no modelling. -/
def BIDSDataset.query_table (d : BIDSDataset) : Except Err QTable :=
  if "file__file_path" ∉ d.cols then .error (.keyError "file__file_path")
  else
    let cols1 := d.cols.filter (fun c => c ≠ "file__file_path")
    let rows1 := d.rows.map (fun r =>
      ({ idx := cellOf r "file__file_path",
         cells := r.filter (fun p => p.1 ≠ "file__file_path") } : QRow))
    let cols2 := cols1 ++ ["path"]
    let rows2 := rows1.map (fun r => { r with cells := r.cells ++ [("path", r.idx)] })
    if "meta__json" ∉ cols2 then .error (.attributeError "meta__json")
    else
      match mapExcept rows2 (fun r => metaDict (cellOf r.cells "meta__json")) with
      | .error e => .error e
      | .ok mdicts =>
        let metaCols := firstUniques (mdicts.flatMap (fun m => m.map (fun kv => kv.1)))
        let metaRows : List Row :=
          mdicts.map (fun m => m.map (fun kv => (kv.1, (some (Val.a kv.2) : Cell))))
        let cols3 := cols2.filter keepCol
        let rows3 := rows2.map (fun r => { r with cells := r.cells.filter (fun p => keepCol p.1) })
        match joinMeta { cols := cols3, rows := rows3 } metaCols metaRows with
        | .error e => .error e
        | .ok joined =>
          let renamed : QTable :=
            { cols := joined.cols.map (renameCol d.schema),
              rows := joined.rows.map (fun r =>
                { r with cells := r.cells.map (fun p => (renameCol d.schema p.1, p.2)) }) }
          let notAllNull := fun (c : String) =>
            renamed.rows.any (fun r => (cellOf r.cells c).isSome)
          .ok { cols := renamed.cols.filter notAllNull,
                rows := renamed.rows.map (fun r =>
                  { r with cells := r.cells.filter (fun p => notAllNull p.1) }) }

/-- `BIDSDataset.get` (layout.py lines 168-173): with no filters, the
`file__file_path` column of the raw table as a list; otherwise `_query`
over the query table. -/
def BIDSDataset.get (d : BIDSDataset) (filters : List (String × FilterVal)) :
    Except Err (List Cell) :=
  if filters = [] then
    if "file__file_path" ∈ d.cols then
      .ok (d.rows.map (fun r => cellOf r "file__file_path"))
    else .error (.keyError "file__file_path")
  else
    match d.query_table with
    | .error e => .error e
    | .ok qt => _query qt filters

/-- `BIDSDataset.get_entities` (layout.py lines 175-180): empty when the
entity is not a query-table column, else `_query` over the query table
re-indexed by that column. -/
def BIDSDataset.get_entities (d : BIDSDataset) (entity : String)
    (filters : List (String × FilterVal)) : Except Err (List Cell) :=
  match d.query_table with
  | .error e => .error e
  | .ok table =>
    if entity ∉ table.cols then .ok []
    else _query (table.set_index entity) filters

/-- `BIDSDataset.get_metadata` (layout.py lines 182-186): empty when the
term is not a query-table column, else `_query` over the query table
re-indexed by that column. -/
def BIDSDataset.get_metadata (d : BIDSDataset) (term : String)
    (filters : List (String × FilterVal)) : Except Err (List Cell) :=
  match d.query_table with
  | .error e => .error e
  | .ok table =>
    if term ∉ table.cols then .ok []
    else _query (table.set_index term) filters

/-! Concrete instances used by counterexamples and witnesses.  The schema
fragment mirrors the bundled BIDS schema, where the entity keyed
`subject` has short name `sub` (`objects.entities.subject.name`), and the
raw table follows the bids2table column contract. -/

/-- Schema entity namespace fragment: key `subject`, short name `sub`. -/
def schemaEx : SchemaEntities := [("subject", "sub")]

/-- Raw-table columns as produced by bids2table. -/
def colsEx : List String :=
  ["ds__dataset_description", "file__file_path", "ent__sub", "ent__datatype",
   "ent__suffix", "ent__ext", "ent__extra_entities", "meta__json"]

/-- One raw-table row: an anatomical T1w image of subject 01. -/
def rowEx : Row :=
  [("ds__dataset_description", some (Val.obj [("Name", Atom.s "Example")])),
   ("file__file_path", some (Val.a (Atom.s "sub-01/anat/sub-01_T1w.nii.gz"))),
   ("ent__sub", some (Val.a (Atom.s "01"))),
   ("ent__datatype", some (Val.a (Atom.s "anat"))),
   ("ent__suffix", some (Val.a (Atom.s "T1w"))),
   ("ent__ext", some (Val.a (Atom.s ".nii.gz"))),
   ("ent__extra_entities", none),
   ("meta__json", none)]

/-- The dataset built from `schemaEx`, `colsEx` and the single row
`rowEx` (construction succeeds; the fallback branch is dead). -/
def dEx : BIDSDataset :=
  match mkDataset schemaEx colsEx [rowEx] with
  | .ok d => d
  | .error _ =>
    { schema := [], cols := [], rows := [], dataset_description := none,
      files := [], datatypes := [], subjects := [] }

/-- The file record `BIDSFile.from_row` produces for `rowEx`. -/
def fEx : BIDSFile :=
  { path := "sub-01/anat/sub-01_T1w.nii.gz", hasDataset := true,
    entities := [("sub", Val.a (Atom.s "01"))],
    datatype := some (Val.a (Atom.s "anat")),
    suffix := some (Val.a (Atom.s "T1w")),
    extension := some (Val.a (Atom.s ".nii.gz")) }

/-- A two-row indexed table whose column `task` holds scalar strings. -/
def tEx4 : QTable :=
  { cols := ["task"],
    rows := [{ idx := some (Val.a (Atom.s "p1")),
               cells := [("task", some (Val.a (Atom.s "rest")))] },
             { idx := some (Val.a (Atom.s "p2")),
               cells := [("task", some (Val.a (Atom.s "nback")))] }] }

/-- A two-row indexed table for the sentinel-filter witness: column `c`
truthy in the first row, falsy in the second. -/
def tEx3 : QTable :=
  { cols := ["c"],
    rows := [{ idx := some (Val.a (Atom.s "p1")),
               cells := [("c", some (Val.a (Atom.s "x")))] },
             { idx := some (Val.a (Atom.s "p2")),
               cells := [("c", some (Val.a (Atom.s "")))] }] }

/-- The query table derived from `dEx` (the value `dEx.query_table`
evaluates to): entity column renamed to the schema key `subject`, the
datatype/suffix/ext columns renamed, internal columns dropped, `path`
added. -/
def qtEx : QTable :=
  { cols := ["subject", "datatype", "suffix", "extension", "path"],
    rows := [{ idx := some (Val.a (Atom.s "sub-01/anat/sub-01_T1w.nii.gz")),
               cells := [("subject", some (Val.a (Atom.s "01"))),
                         ("datatype", some (Val.a (Atom.s "anat"))),
                         ("suffix", some (Val.a (Atom.s "T1w"))),
                         ("extension", some (Val.a (Atom.s ".nii.gz"))),
                         ("path", some (Val.a (Atom.s "sub-01/anat/sub-01_T1w.nii.gz")))] }] }

/-- Decidable equality of `Except` results, for evaluating the modelled
operations on concrete inputs. -/
instance {ε α : Type} [DecidableEq ε] [DecidableEq α] : DecidableEq (Except ε α) := fun x y =>
  match x, y with
  | .ok a, .ok b =>
    if h : a = b then isTrue (by rw [h]) else isFalse (by intro hc; injection hc; contradiction)
  | .error a, .error b =>
    if h : a = b then isTrue (by rw [h]) else isFalse (by intro hc; injection hc; contradiction)
  | .ok _, .error _ => isFalse (by intro hc; injection hc)
  | .error _, .ok _ => isFalse (by intro hc; injection hc)

theorem string_append_left_cancel {s a b : String} (h : s ++ a = s ++ b) : a = b := by
  have h2 : (s ++ a).data = (s ++ b).data := congrArg String.data h
  rw [String.data_append, String.data_append] at h2
  exact String.ext (List.append_cancel_left h2)

theorem mem_of_mem_uniqAux {α : Type} [DecidableEq α] :
    ∀ {l seen : List α} {x : α}, x ∈ uniqAux seen l → x ∈ l := by
  intro l
  induction l with
  | nil => intro seen x h; simp [uniqAux] at h
  | cons a as ih =>
    intro seen x h
    simp only [uniqAux] at h
    split at h
    · exact List.mem_cons_of_mem a (ih h)
    · rcases List.mem_cons.mp h with h | h
      · exact h ▸ List.mem_cons_self a as
      · exact List.mem_cons_of_mem a (ih h)

theorem mem_of_mem_firstUniques {α : Type} [DecidableEq α] {l : List α} {x : α}
    (h : x ∈ firstUniques l) : x ∈ l :=
  mem_of_mem_uniqAux h

theorem find?_append_some {α : Type} {p : α → Bool} {l1 l2 : List α} {a : α}
    (h : l1.find? p = some a) : (l1 ++ l2).find? p = some a := by
  induction l1 with
  | nil => simp [List.find?] at h
  | cons b bs ih =>
    rw [List.cons_append]
    cases hb : p b with
    | true =>
      rw [List.find?_cons_of_pos _ hb] at h
      rw [List.find?_cons_of_pos _ hb]
      exact h
    | false =>
      rw [List.find?_cons_of_neg _ (by simp [hb])] at h
      rw [List.find?_cons_of_neg _ (by simp [hb])]
      exact ih h

theorem find?_append_none {α : Type} {p : α → Bool} {l1 l2 : List α}
    (h : l1.find? p = none) : (l1 ++ l2).find? p = l2.find? p := by
  induction l1 with
  | nil => simp
  | cons b bs ih =>
    rw [List.cons_append]
    cases hb : p b with
    | true => rw [List.find?_cons_of_pos _ hb] at h; cases h
    | false =>
      rw [List.find?_cons_of_neg _ (by simp [hb])] at h
      rw [List.find?_cons_of_neg _ (by simp [hb])]
      exact ih h

theorem find?_pred_unique {l : List (String × String)} {key val : String}
    (hmem : (key, val) ∈ l) (huniq : ∀ p ∈ l, p.1 = key → p.2 = val) :
    l.find? (fun p => p.1 == key) = some (key, val) := by
  induction l with
  | nil => cases hmem
  | cons a as ih =>
    obtain ⟨a1, a2⟩ := a
    by_cases ha : a1 = key
    · have h2 : a2 = val := huniq (a1, a2) (List.mem_cons_self _ _) ha
      subst ha; subst h2
      rw [List.find?_cons_of_pos _ (by simp)]
    · have hm : (key, val) ∈ as := by
        rcases List.mem_cons.mp hmem with h | h
        · exact absurd (congrArg Prod.fst h).symm ha
        · exact h
      have hu : ∀ p ∈ as, p.1 = key → p.2 = val := fun p hp => huniq p (List.mem_cons_of_mem _ hp)
      rw [List.find?_cons_of_neg _ (by simp [ha])]
      exact ih hm hu

theorem mapExcept_ok_length {α β : Type} :
    ∀ {l : List α} {f : α → Except Err β} {bs : List β},
      mapExcept l f = .ok bs → bs.length = l.length := by
  intro l
  induction l with
  | nil => intro f bs h; simp only [mapExcept] at h; injection h with h; simp [← h]
  | cons a as ih =>
    intro f bs h
    simp only [mapExcept] at h
    split at h
    · exact Except.noConfusion h
    · split at h
      · exact Except.noConfusion h
      · injection h with h; simp [← h, ih (by assumption)]

theorem mapExcept_ok_mem {α β : Type} :
    ∀ {l : List α} {f : α → Except Err β} {bs : List β},
      mapExcept l f = .ok bs → ∀ b ∈ bs, ∃ a ∈ l, f a = .ok b := by
  intro l
  induction l with
  | nil =>
    intro f bs h b hb
    simp only [mapExcept] at h; injection h with h; subst h; cases hb
  | cons a as ih =>
    intro f bs h b hb
    simp only [mapExcept] at h
    split at h
    · exact Except.noConfusion h
    · split at h
      · exact Except.noConfusion h
      · injection h with h
        subst h
        rcases List.mem_cons.mp hb with hb | hb
        · exact ⟨a, List.mem_cons_self _ _, by rw [hb]; assumption⟩
        · obtain ⟨a', ha', hfa'⟩ := ih (by assumption) b hb
          exact ⟨a', List.mem_cons_of_mem _ ha', hfa'⟩

theorem mapExcept_cons_ok {α β : Type} {a : α} {as : List α} {f : α → Except Err β}
    {bs : List β} (h : mapExcept (a :: as) f = .ok bs) :
    ∃ b bs', f a = .ok b ∧ mapExcept as f = .ok bs' ∧ bs = b :: bs' := by
  simp only [mapExcept] at h
  split at h
  · exact Except.noConfusion h
  · split at h
    · exact Except.noConfusion h
    · injection h with h
      exact ⟨_, _, by assumption, by assumption, h.symm⟩

theorem from_row_path {cols : List String} {row : Row} {hd : Bool} {f : BIDSFile}
    (h : BIDSFile.from_row cols row hd = .ok f) :
    cellOf row "file__file_path" = some (Val.a (Atom.s f.path)) := by
  simp only [BIDSFile.from_row] at h
  split at h
  · split at h
    · split at h
      · split at h
        · split at h
          · injection h with h; rw [← h]; assumption
          · exact Except.noConfusion h
        · exact Except.noConfusion h
      · exact Except.noConfusion h
    · exact Except.noConfusion h
  · exact Except.noConfusion h

theorem from_row_cols {cols : List String} {row : Row} {hd : Bool} {f : BIDSFile}
    (h : BIDSFile.from_row cols row hd = .ok f) : "file__file_path" ∈ cols := by
  simp only [BIDSFile.from_row] at h
  split at h
  · assumption
  · exact Except.noConfusion h

theorem mapExcept_paths {cols : List String} :
    ∀ {rows : List Row} {files : List BIDSFile},
      mapExcept rows (fun r => BIDSFile.from_row cols r true) = .ok files →
      rows.map (fun r => cellOf r "file__file_path")
        = files.map (fun f => some (Val.a (Atom.s f.path))) := by
  intro rows
  induction rows with
  | nil => intro files h; simp only [mapExcept] at h; injection h with h; simp [← h]
  | cons r rs ih =>
    intro files h
    obtain ⟨b, bs', hfa, hrest, hbs⟩ := mapExcept_cons_ok h
    subst hbs
    simp [from_row_path hfa, ih hrest]

theorem mkDataset_ok {schema : SchemaEntities} {cols : List String} {rows : List Row}
    {d : BIDSDataset} (h : mkDataset schema cols rows = .ok d) :
    d.schema = schema ∧ d.cols = cols ∧ d.rows = rows ∧
      mapExcept rows (fun r => BIDSFile.from_row cols r true) = .ok d.files ∧ rows ≠ [] := by
  simp only [mkDataset] at h
  split at h
  · exact Except.noConfusion h
  · split at h
    · exact Except.noConfusion h
    · rename_i rows' r0 rest
      split at h
      · exact Except.noConfusion h
      · split at h
        · exact Except.noConfusion h
        · split at h
          · exact Except.noConfusion h
          · injection h with h
            refine ⟨by rw [← h], by rw [← h], by rw [← h], ?_, by simp⟩
            rw [← h]
            assumption

theorem query_idx_source :
    ∀ (fs : List (String × FilterVal)) (t : QTable) (ixs : List Cell),
      _query t fs = .ok ixs → ∀ ix ∈ ixs, ∃ r, r ∈ t.rows ∧ r.idx = ix := by
  intro fs
  induction fs with
  | nil =>
    intro t ixs h ix hix
    simp only [_query] at h
    injection h with h
    subst h
    obtain ⟨r, hr, hidx⟩ := List.mem_map.mp (mem_of_mem_firstUniques hix)
    exact ⟨r, hr, hidx⟩
  | cons hd tl ih =>
    obtain ⟨key, v⟩ := hd
    intro t ixs h ix hix
    cases v with
    | noneS =>
      simp only [_query] at h
      split at h
      · obtain ⟨r, hr, hidx⟩ := ih _ _ h ix hix
        simp only [QTable.filterRows] at hr
        exact ⟨r, (List.mem_filter.mp hr).1, hidx⟩
      · exact Except.noConfusion h
    | required =>
      simp only [_query] at h
      split at h
      · obtain ⟨r, hr, hidx⟩ := ih _ _ h ix hix
        simp only [QTable.filterRows, QTable.dropna] at hr
        exact ⟨r, (List.mem_filter.mp (List.mem_filter.mp hr).1).1, hidx⟩
      · exact Except.noConfusion h
    | optional =>
      simp only [_query] at h
      exact ih _ _ h ix hix
    | scalar v =>
      simp only [_query] at h
      split at h
      · injection h with h; subst h; cases hix
      · obtain ⟨r, hr, hidx⟩ := ih _ _ h ix hix
        simp only [QTable.filterRows, QTable.dropna] at hr
        exact ⟨r, (List.mem_filter.mp (List.mem_filter.mp hr).1).1, hidx⟩
    | flist vs =>
      simp only [_query] at h
      split at h
      · injection h with h; subst h; cases hix
      · split at h
        · split at h
          · exact Except.noConfusion h
          · split at h
            · exact Except.noConfusion h
            · exact Except.noConfusion h
        · split at h
          · exact Except.noConfusion h
          · obtain ⟨r, hr, hidx⟩ := ih _ _ h ix hix
            obtain ⟨rv, hrv, heq⟩ := List.mem_filterMap.mp hr
            have hr1 : r ∈ (t.dropna key).rows := by
              split at heq
              · injection heq with heq; exact heq ▸ (List.of_mem_zip hrv).1
              · exact Option.noConfusion heq
            simp only [QTable.dropna] at hr1
            exact ⟨r, (List.mem_filter.mp hr1).1, hidx⟩

theorem query_prefix :
    ∀ (pre : List (String × FilterVal)) (t : QTable) (fs : List (String × FilterVal))
      (ixs : List Cell),
      _query t (pre ++ fs) = .ok ixs →
      ixs = [] ∨ ∃ t' : QTable, (∀ r, r ∈ t'.rows → r ∈ t.rows) ∧ _query t' fs = .ok ixs := by
  intro pre
  induction pre with
  | nil => intro t fs ixs h; exact Or.inr ⟨t, fun _ hr => hr, h⟩
  | cons hd tl ih =>
    obtain ⟨key, v⟩ := hd
    intro t fs ixs h
    rw [List.cons_append] at h
    cases v with
    | noneS =>
      simp only [_query] at h
      split at h
      · rcases ih _ _ _ h with hnil | ⟨t', hsub, h'⟩
        · exact Or.inl hnil
        · refine Or.inr ⟨t', fun r hr => ?_, h'⟩
          have := hsub r hr
          simp only [QTable.filterRows] at this
          exact (List.mem_filter.mp this).1
      · exact Except.noConfusion h
    | required =>
      simp only [_query] at h
      split at h
      · rcases ih _ _ _ h with hnil | ⟨t', hsub, h'⟩
        · exact Or.inl hnil
        · refine Or.inr ⟨t', fun r hr => ?_, h'⟩
          have := hsub r hr
          simp only [QTable.filterRows, QTable.dropna] at this
          exact (List.mem_filter.mp (List.mem_filter.mp this).1).1
      · exact Except.noConfusion h
    | optional =>
      simp only [_query] at h
      exact ih _ _ _ h
    | scalar v =>
      simp only [_query] at h
      split at h
      · injection h with h; exact Or.inl h.symm
      · rcases ih _ _ _ h with hnil | ⟨t', hsub, h'⟩
        · exact Or.inl hnil
        · refine Or.inr ⟨t', fun r hr => ?_, h'⟩
          have := hsub r hr
          simp only [QTable.filterRows, QTable.dropna] at this
          exact (List.mem_filter.mp (List.mem_filter.mp this).1).1
    | flist vs =>
      simp only [_query] at h
      split at h
      · injection h with h; exact Or.inl h.symm
      · split at h
        · split at h
          · exact Except.noConfusion h
          · split at h
            · exact Except.noConfusion h
            · exact Except.noConfusion h
        · split at h
          · exact Except.noConfusion h
          · rcases ih _ _ _ h with hnil | ⟨t', hsub, h'⟩
            · exact Or.inl hnil
            · refine Or.inr ⟨t', fun r hr => ?_, h'⟩
              have hmem := hsub r hr
              obtain ⟨rv, hrv, heq⟩ := List.mem_filterMap.mp hmem
              have hr1 : r ∈ (t.dropna key).rows := by
                split at heq
                · injection heq with heq; exact heq ▸ (List.of_mem_zip hrv).1
                · exact Option.noConfusion heq
              simp only [QTable.dropna] at hr1
              exact (List.mem_filter.mp hr1).1

theorem query_scalar_missing :
    ∀ (fs : List (String × FilterVal)) (t : QTable),
      (∀ p ∈ fs, ∃ v, p.2 = FilterVal.scalar v) →
      (∃ p ∈ fs, p.1 ∉ t.cols) →
      _query t fs = .ok [] := by
  intro fs
  induction fs with
  | nil =>
    intro t _ hmiss
    obtain ⟨p, hp, _⟩ := hmiss
    cases hp
  | cons hd tl ih =>
    obtain ⟨key, v⟩ := hd
    intro t hall hmiss
    obtain ⟨w, hw⟩ := hall (key, v) (List.mem_cons_self _ _)
    simp only at hw
    subst hw
    simp only [_query]
    split
    · rfl
    · rename_i hcond
      push_neg at hcond
      obtain ⟨p, hp, hpmiss⟩ := hmiss
      rcases List.mem_cons.mp hp with hp | hp
      · exact absurd hcond.1 (by rw [hp] at hpmiss; exact hpmiss)
      · exact ih _ (fun q hq => hall q (List.mem_cons_of_mem _ hq)) ⟨p, hp, hpmiss⟩

/-- C1: the round-trip claim fails on the code.  For the dataset built
from `rowEx` with the bundled-schema fragment (`subject` has short name
`sub`), the single file carries the entity key `sub`, but `query_table`
renames the column `ent__sub` to the schema key `subject`; filtering by
the file's own entity keys therefore hits a missing column and `get`
returns `[]`, which does not include the file's path.  The final
conjunct shows the query succeeds once the entity key is spelled
`subject`, locating the slip in the key/name mismatch. -/
theorem roundtrip_entity_keys_fail :
    mkDataset schemaEx colsEx [rowEx] = .ok dEx ∧
    dEx.files = [fEx] ∧
    dEx.get [("sub", FilterVal.scalar (Val.a (Atom.s "01"))),
             ("datatype", FilterVal.scalar (Val.a (Atom.s "anat"))),
             ("suffix", FilterVal.scalar (Val.a (Atom.s "T1w"))),
             ("extension", FilterVal.scalar (Val.a (Atom.s ".nii.gz")))] = .ok [] ∧
    dEx.get [("subject", FilterVal.scalar (Val.a (Atom.s "01"))),
             ("datatype", FilterVal.scalar (Val.a (Atom.s "anat"))),
             ("suffix", FilterVal.scalar (Val.a (Atom.s "T1w"))),
             ("extension", FilterVal.scalar (Val.a (Atom.s ".nii.gz")))]
      = .ok [some (Val.a (Atom.s "sub-01/anat/sub-01_T1w.nii.gz"))] := by
  refine ⟨?_, ?_, ?_, ?_⟩ <;> decide

/-- C2 (counterexample): a `None`/`NONE` or `REQUIRED` filter on a column
absent from the query table raises `KeyError` instead of returning an
empty list, because `_query` reads `table[key]` (resp. `dropna(subset=key)`)
in those branches before the missing-column check. -/
theorem get_missing_column_sentinel_raises :
    mkDataset schemaEx colsEx [rowEx] = .ok dEx ∧
    dEx.get [("nonexistent", FilterVal.noneS)] = .error (.keyError "nonexistent") ∧
    dEx.get [("nonexistent", FilterVal.required)] = .error (.keyError "nonexistent") := by
  refine ⟨?_, ?_, ?_⟩ <;> decide

/-- C2 (amended): for filter mappings whose values are all ordinary
scalar values (not sentinels, not lists), a filter key that is not a
column of the query table makes `get`, `get_entities` and `get_metadata`
return an empty list without raising. -/
theorem get_missing_column_scalar_empty (d : BIDSDataset) (qt : QTable) (s k : String)
    (v : FilterVal) (fs : List (String × FilterVal))
    (hqt : d.query_table = .ok qt)
    (hall : ∀ p ∈ fs, ∃ w, p.2 = FilterVal.scalar w)
    (hk : (k, v) ∈ fs) (hmiss : k ∉ qt.cols) :
    d.get fs = .ok [] ∧ d.get_entities s fs = .ok [] ∧ d.get_metadata s fs = .ok [] := by
  have hfs : ¬(fs = []) := by intro hnil; rw [hnil] at hk; cases hk
  have hq : _query qt fs = .ok [] := query_scalar_missing fs qt hall ⟨(k, v), hk, hmiss⟩
  have hsub : ∀ fsx, _query (qt.set_index s) fsx = _query (qt.set_index s) fsx := fun _ => rfl
  refine ⟨?_, ?_, ?_⟩
  · simp only [BIDSDataset.get, if_neg hfs, hqt]
    exact hq
  · simp only [BIDSDataset.get_entities, hqt]
    split
    · rfl
    · exact query_scalar_missing fs (qt.set_index s) hall
        ⟨(k, v), hk, by
          simp only [QTable.set_index]
          intro hmem
          exact hmiss (List.mem_filter.mp hmem).1⟩
  · simp only [BIDSDataset.get_metadata, hqt]
    split
    · rfl
    · exact query_scalar_missing fs (qt.set_index s) hall
        ⟨(k, v), hk, by
          simp only [QTable.set_index]
          intro hmem
          exact hmiss (List.mem_filter.mp hmem).1⟩

/-- C2 witness: the amended statement evaluated on the concrete dataset
`dEx` and a scalar filter on a nonexistent column. -/
theorem get_missing_column_scalar_empty_witness :
    dEx.get [("nonexistent", FilterVal.scalar (Val.a (Atom.s "x")))] = .ok [] ∧
    dEx.get_entities "subject" [("nonexistent", FilterVal.scalar (Val.a (Atom.s "x")))] = .ok [] ∧
    dEx.get_metadata "subject" [("nonexistent", FilterVal.scalar (Val.a (Atom.s "x")))] = .ok [] :=
  get_missing_column_scalar_empty dEx qtEx "subject" "nonexistent"
    (FilterVal.scalar (Val.a (Atom.s "x")))
    [("nonexistent", FilterVal.scalar (Val.a (Atom.s "x")))]
    (by decide)
    (by intro p hp; rw [List.mem_singleton] at hp; subst hp; exact ⟨Val.a (Atom.s "x"), rfl⟩)
    (List.mem_singleton.mpr rfl)
    (by decide)

/-- C3: in any `_query` whose filters give column `c` the `REQUIRED`
sentinel, every returned index label comes from a row of the input table
whose cell at `c` is non-null and truthy; with `None`/`NONE` for `c`,
every returned label comes from a row whose cell at `c` is absent, null
or falsy (in fact always a present falsy value, since pandas NaN is
truthy under `astype(bool)`). -/
theorem sentinel_filter_rows_sound (t : QTable) (c : String)
    (pre post : List (String × FilterVal)) (fv : FilterVal) (ixs : List Cell)
    (hfv : fv = FilterVal.required ∨ fv = FilterVal.noneS)
    (h : _query t (pre ++ (c, fv) :: post) = .ok ixs) :
    ∀ ix ∈ ixs, ∃ r, r ∈ t.rows ∧ r.idx = ix ∧
      ((fv = FilterVal.required → ∃ v, cellOf r.cells c = some v ∧ v.truthy = true) ∧
       (fv = FilterVal.noneS →
         cellOf r.cells c = none ∨ ∃ v, cellOf r.cells c = some v ∧ v.truthy = false)) := by
  intro ix hix
  rcases query_prefix pre t _ ixs h with hnil | ⟨t', hsub, h'⟩
  · subst hnil; cases hix
  · rcases hfv with rfl | rfl
    · simp only [_query] at h'
      split at h'
      · obtain ⟨r, hr, hidx⟩ := query_idx_source post _ ixs h' ix hix
        simp only [QTable.filterRows, QTable.dropna] at hr
        have h1 := List.mem_filter.mp hr
        have h2 := List.mem_filter.mp h1.1
        refine ⟨r, hsub r h2.1, hidx, fun _ => ?_, fun hab => absurd hab (by decide)⟩
        rcases hcell : cellOf r.cells c with _ | v
        · rw [hcell] at h2; simp at h2
        · have := h1.2
          rw [hcell] at this
          exact ⟨v, rfl, by simpa [astypeBool] using this⟩
      · exact Except.noConfusion h'
    · simp only [_query] at h'
      split at h'
      · obtain ⟨r, hr, hidx⟩ := query_idx_source post _ ixs h' ix hix
        simp only [QTable.filterRows] at hr
        have h1 := List.mem_filter.mp hr
        refine ⟨r, hsub r h1.1, hidx, fun hab => absurd hab (by decide), fun _ => ?_⟩
        rcases hcell : cellOf r.cells c with _ | v
        · exact Or.inl rfl
        · have := h1.2
          rw [hcell] at this
          exact Or.inr ⟨v, rfl, by simpa [astypeBool] using this⟩
      · exact Except.noConfusion h'

/-- C3 witness: the `REQUIRED` half evaluated on the concrete table
`tEx3`, whose query returns exactly the index `p1`. -/
theorem sentinel_filter_rows_sound_witness :
    ∃ r, r ∈ tEx3.rows ∧ r.idx = some (Val.a (Atom.s "p1")) ∧
      ((FilterVal.required = FilterVal.required →
         ∃ v, cellOf r.cells "c" = some v ∧ v.truthy = true) ∧
       (FilterVal.required = FilterVal.noneS →
         cellOf r.cells "c" = none ∨ ∃ v, cellOf r.cells "c" = some v ∧ v.truthy = false)) :=
  sentinel_filter_rows_sound tEx3 "c" [] [] FilterVal.required
    [some (Val.a (Atom.s "p1"))] (Or.inl rfl) (by decide)
    (some (Val.a (Atom.s "p1"))) (List.mem_singleton.mpr rfl)

/-- C4: the claim fails on the code because the list-filter branch is
broken.  On the two-row scalar-column table `tEx4`, filtering by each
candidate value alone succeeds, so the claimed union is `[p1, p2]`, but
the list filter evaluates `table[table[key] in val]`, whose `bool()` of
a two-element comparison Series raises "truth value ambiguous"
(ValueError).  The code's own comment says the branch intends a
"contains" membership check, so this is a slip, not intended
behaviour. -/
theorem list_filter_union_fails :
    _query tEx4 [("task", FilterVal.scalar (Val.a (Atom.s "rest")))]
      = .ok [some (Val.a (Atom.s "p1"))] ∧
    _query tEx4 [("task", FilterVal.scalar (Val.a (Atom.s "nback")))]
      = .ok [some (Val.a (Atom.s "p2"))] ∧
    _query tEx4 [("task", FilterVal.flist [Val.a (Atom.s "rest"), Val.a (Atom.s "nback")])]
      = .error .truthAmbiguous := by
  refine ⟨?_, ?_, ?_⟩ <;> decide

/-- C5: with no owning dataset `metadata` raises the bare `ValueError`
the claim describes, but with a dataset attached it raises `NameError`
instead of returning the metadata cell: line 112 references the unbound
name `dataset` where `self.dataset` is meant.  `fEx` is the file of the
constructed dataset `dEx`. -/
theorem metadata_raises_nameerror :
    dEx.files = [fEx] ∧
    fEx.metadata = .error (.nameError "dataset") ∧
    BIDSFile.metadata { fEx with hasDataset := false } = .error .valueError := by
  refine ⟨?_, ?_, ?_⟩ <;> decide

/-- C6 (counterexample): `from_row` on a row missing the file-path
column fails with `KeyError`, not with the `BIDSValidationError` class
the claim names (which this module never raises). -/
theorem from_row_not_validation_error :
    BIDSFile.from_row ["ent__sub", "ent__datatype", "ent__suffix", "ent__ext"]
        [("ent__sub", some (Val.a (Atom.s "01")))] true
      = .error (.keyError "file__file_path") ∧
    BIDSFile.from_row ["ent__sub", "ent__datatype", "ent__suffix", "ent__ext"]
        [("ent__sub", some (Val.a (Atom.s "01")))] true
      ≠ .error .bidsValidation := by
  refine ⟨?_, ?_⟩ <;> decide

/-- C6 (amended): for every row whose table lacks the file-path column,
`BIDSFile.from_row` fails with a `KeyError` naming that column — a
generic lookup error, not the dataset's designated validation error. -/
theorem from_row_missing_path_keyerror (cols : List String) (row : Row) (hd : Bool)
    (h : "file__file_path" ∉ cols) :
    BIDSFile.from_row cols row hd = .error (.keyError "file__file_path") := by
  simp only [BIDSFile.from_row, if_neg h]

/-- C6 witness: the amended statement evaluated on a concrete column
list without the file-path column. -/
theorem from_row_missing_path_keyerror_witness :
    BIDSFile.from_row ["ent__sub"] [] true = .error (.keyError "file__file_path") :=
  from_row_missing_path_keyerror ["ent__sub"] [] true (by decide)

/-- C7: the `query_table` renamer sends `ent__datatype`, `ent__suffix`
and `ent__ext` to `datatype`, `suffix` and `extension` unconditionally,
and sends `ent__sub` to the schema-defined name of the entity whose
short name is `sub` (the key `k`, e.g. `subject` in the bundled
schema). -/
theorem query_table_entity_renaming (schema : SchemaEntities) (k : String)
    (hmem : (k, "sub") ∈ schema)
    (huniq : ∀ p ∈ schema, p.2 = "sub" → p.1 = k) :
    (renameCol schema "ent__sub" = "sub" ∨ renameCol schema "ent__sub" = k) ∧
    renameCol schema "ent__datatype" = "datatype" ∧
    renameCol schema "ent__suffix" = "suffix" ∧
    renameCol schema "ent__ext" = "extension" := by
  have hrev : (renPairs schema).reverse
      = [("ent__ext", "extension"), ("ent__suffix", "suffix"), ("ent__datatype", "datatype")]
        ++ (schema.map (fun kv => ("ent__" ++ kv.2, kv.1))).reverse := by
    simp only [renPairs, List.reverse_append]
    rfl
  refine ⟨Or.inr ?_, ?_, ?_, ?_⟩
  · have hnone : ([("ent__ext", "extension"), ("ent__suffix", "suffix"),
        ("ent__datatype", "datatype")] : List (String × String)).find?
          (fun p => p.1 == "ent__sub") = none := by decide
    have hmem' : ("ent__sub", k)
        ∈ (schema.map (fun kv => ("ent__" ++ kv.2, kv.1))).reverse := by
      rw [List.mem_reverse, List.mem_map]
      refine ⟨(k, "sub"), hmem, ?_⟩
      rw [show ("ent__" ++ "sub" : String) = "ent__sub" from by decide]
    have huniq' : ∀ p ∈ (schema.map (fun kv => ("ent__" ++ kv.2, kv.1))).reverse,
        p.1 = "ent__sub" → p.2 = k := by
      intro p hp hp1
      rw [List.mem_reverse, List.mem_map] at hp
      obtain ⟨q, hq, hgq⟩ := hp
      obtain ⟨q1, q2⟩ := q
      simp only at hgq
      subst hgq
      simp only at hp1 ⊢
      have hq2 : q2 = "sub" := string_append_left_cancel (hp1.trans (by decide))
      exact huniq (q1, q2) hq hq2
    have hfind := find?_pred_unique hmem' huniq'
    simp only [renameCol, hrev, find?_append_none hnone, hfind]
  · have hsome : ([("ent__ext", "extension"), ("ent__suffix", "suffix"),
        ("ent__datatype", "datatype")] : List (String × String)).find?
          (fun p => p.1 == "ent__datatype") = some ("ent__datatype", "datatype") := by decide
    simp only [renameCol, hrev, find?_append_some hsome]
  · have hsome : ([("ent__ext", "extension"), ("ent__suffix", "suffix"),
        ("ent__datatype", "datatype")] : List (String × String)).find?
          (fun p => p.1 == "ent__suffix") = some ("ent__suffix", "suffix") := by decide
    simp only [renameCol, hrev, find?_append_some hsome]
  · have hsome : ([("ent__ext", "extension"), ("ent__suffix", "suffix"),
        ("ent__datatype", "datatype")] : List (String × String)).find?
          (fun p => p.1 == "ent__ext") = some ("ent__ext", "extension") := by decide
    simp only [renameCol, hrev, find?_append_some hsome]

/-- C7 witness: the renaming evaluated on the concrete schema fragment
`schemaEx`, where the entity keyed `subject` has short name `sub`. -/
theorem query_table_entity_renaming_witness :
    (renameCol schemaEx "ent__sub" = "sub" ∨ renameCol schemaEx "ent__sub" = "subject") ∧
    renameCol schemaEx "ent__datatype" = "datatype" ∧
    renameCol schemaEx "ent__suffix" = "suffix" ∧
    renameCol schemaEx "ent__ext" = "extension" :=
  query_table_entity_renaming schemaEx "subject" (by decide) (by decide)

/-- C8: on a successfully constructed dataset, `get` with no filters
returns exactly the `file__file_path` cells of the raw table's rows in
row order — equivalently, the paths of `files` in order. -/
theorem get_no_filters_all_paths (schema : SchemaEntities) (cols : List String)
    (rows : List Row) (d : BIDSDataset) (h : mkDataset schema cols rows = .ok d) :
    d.get [] = .ok (d.rows.map (fun r => cellOf r "file__file_path")) ∧
    d.get [] = .ok (d.files.map (fun f => some (Val.a (Atom.s f.path)))) := by
  obtain ⟨_, hcols, hrows, hfiles, hne⟩ := mkDataset_ok h
  have hmem : "file__file_path" ∈ d.cols := by
    rw [hcols]
    cases hrv : rows with
    | nil => exact absurd hrv hne
    | cons r0 rest =>
      rw [hrv] at hfiles
      obtain ⟨b, bs', hfa, _, _⟩ := mapExcept_cons_ok hfiles
      exact from_row_cols hfa
  constructor
  · simp [BIDSDataset.get, hmem]
  · simp [BIDSDataset.get, hmem]
    rw [hrows, mapExcept_paths hfiles]

/-- C8 witness: the statement evaluated on the concrete dataset `dEx`. -/
theorem get_no_filters_all_paths_witness :
    dEx.get [] = .ok (dEx.rows.map (fun r => cellOf r "file__file_path")) ∧
    dEx.get [] = .ok (dEx.files.map (fun f => some (Val.a (Atom.s f.path)))) :=
  get_no_filters_all_paths schemaEx colsEx [rowEx] dEx (by decide)

/-- C9: on a successfully constructed dataset, `files` has exactly one
entry per raw-table row, and every file's path is the `file__file_path`
cell of some row. -/
theorem files_length_and_paths (schema : SchemaEntities) (cols : List String)
    (rows : List Row) (d : BIDSDataset) (h : mkDataset schema cols rows = .ok d) :
    d.files.length = d.rows.length ∧
    ∀ f ∈ d.files, ∃ r ∈ d.rows,
      cellOf r "file__file_path" = some (Val.a (Atom.s f.path)) := by
  obtain ⟨_, _, hrows, hfiles, _⟩ := mkDataset_ok h
  constructor
  · rw [hrows]
    exact mapExcept_ok_length hfiles
  · intro f hf
    obtain ⟨r, hr, hfr⟩ := mapExcept_ok_mem hfiles f hf
    exact ⟨r, by rw [hrows]; exact hr, from_row_path hfr⟩

/-- C9 witness: the statement evaluated on the concrete dataset `dEx`. -/
theorem files_length_and_paths_witness :
    dEx.files.length = dEx.rows.length ∧
    ∀ f ∈ dEx.files, ∃ r ∈ dEx.rows,
      cellOf r "file__file_path" = some (Val.a (Atom.s f.path)) :=
  files_length_and_paths schemaEx colsEx [rowEx] dEx (by decide)

/-- C10: `get_entities` and `get_metadata` are behaviourally identical —
their bodies are the same missing-column check, re-index and `_query`
call, so they agree (results and errors alike) on every dataset, column
name and filter mapping. -/
theorem get_entities_eq_get_metadata :
    ∀ (d : BIDSDataset) (s : String) (fs : List (String × FilterVal)),
      d.get_entities s fs = d.get_metadata s fs :=
  fun _ _ _ => rfl

end Xap

